import Mathlib

/-
Verification development for goreplace (goreplace.go, version 0.4.0).

The per-file mutation engine (`applyChangesetsToFile` and its helpers) is
embedded as pure Lean functions, line by line from the Go source.  The Go
program reads a file into lines with `Readln` (bufio.ReadLine semantics),
applies the ordered changesets to each line, and either rewrites the file
or reports "no match".  Machine-level aspects (goroutine scheduling, the
unbuffered results channel, panics) are modelled explicitly where a claim
needs them.
-/

namespace GoReplace

/-- Abstract compiled matcher.  The pattern compiler (regexp construction from
a raw term plus flags, `buildSearchTerm` in the source) is an external
collaborator; the engine only consumes this interface: `MatchString`,
`ReplaceAllString` (backreference-aware) and `ReplaceAllLiteralString`. -/
structure Matcher where
  matchString : String → Bool
  replaceAllString : String → String → String
  replaceAllLiteralString : String → String → String

/-- `changeset` from goreplace.go lines 22-26: a compiled search matcher, a
replacement string, and the per-file MatchFound flag. -/
structure changeset where
  Search : Matcher
  Replace : String
  MatchFound : Bool

/-- `fileitem` from goreplace.go lines 34-36. -/
structure fileitem where
  Path : String

/-- The fields of the global `opts` struct that the mutation engine reads
(goreplace.go lines 38-59).  Matcher-construction flags (IgnoreCase, Regex,
RegexPosix) live inside the abstract `Matcher` and are omitted. -/
structure Opts where
  ModeIsReplaceMatch : Bool
  ModeIsReplaceLine : Bool
  ModeIsLineInFile : Bool
  Once : Bool
  OnceRemoveMatch : Bool
  RegexBackref : Bool
  DryRun : Bool
  Verbose : Bool

/-- The two `panic(err)` sites of the engine: open failure (line 71) and
write failure (line 184). -/
inductive GoPanic where
  | openError : GoPanic
  | writeError : GoPanic
deriving DecidableEq

/-! ## Line splitting (Readln, goreplace.go lines 143-153)

`Readln` wraps `bufio.Reader.ReadLine`: each returned line has its trailing
`\n` removed together with an immediately preceding `\r`; at end of file a
final unterminated chunk is returned as a last line, and an empty file
yields no lines at all. -/

/-- Drop a single trailing carriage return, as `ReadLine` does when the
terminator was `\r\n`. -/
def dropCR (cur : List Char) : List Char :=
  if cur.getLast? = some '\r' then cur.dropLast else cur

/-- Accumulate characters of the current line (`cur`) until a newline is hit;
mirrors repeatedly calling `Readln` until it returns an error (EOF). -/
def goLinesAux (cur : List Char) : List Char → List (List Char)
  | [] => if cur = [] then [] else [cur]
  | c :: rest =>
    if c = '\n' then dropCR cur :: goLinesAux [] rest
    else goLinesAux (cur ++ [c]) rest

/-- All lines of a file content, as the `Readln` loop of
`applyChangesetsToFile` (lines 78-117) produces them. -/
def goSplitLines (s : String) : List String :=
  (goLinesAux [] s.data).map String.mk

/-! ## The literal matcher

`buildSearchTerm` (lines 205-236) with `--regex` off quotes the raw term with
`regexp.QuoteMeta`, so the compiled regexp matches exactly the verbatim
substring and `ReplaceAllLiteralString` replaces its leftmost non-overlapping
occurrences.  `literalMatcher` models that compiled matcher for a non-empty
literal term (the degenerate empty-pattern behaviour of Go regexps is not
modelled; backreference `$`-expansion of `ReplaceAllString` is not modelled,
`replaceAllString` is only faithful for replacement terms without `$`). -/

/-- Is `term` a prefix of `l`? -/
def listStartsWith : List Char → List Char → Bool
  | [], _ => true
  | _ :: _, [] => false
  | a :: as, b :: bs => a = b && listStartsWith as bs

/-- Does `term` occur as a substring? (Empty `term` always matches, as the
empty regexp does.) -/
def hasSubstr (term : List Char) : List Char → Bool
  | [] => term.isEmpty
  | c :: rest => listStartsWith term (c :: rest) || hasSubstr term rest

/-- Replace every leftmost non-overlapping occurrence of `term` by `repl`.
The `Nat` argument is recursion fuel, always called with the length of the
scanned list; on empty `term` this is the identity. -/
def replaceAllFuel (term repl : List Char) : Nat → List Char → List Char
  | 0, l => l
  | _ + 1, [] => []
  | n + 1, c :: rest =>
    if term ≠ [] ∧ listStartsWith term (c :: rest) then
      repl ++ replaceAllFuel term repl n (rest.drop (term.length - 1))
    else
      c :: replaceAllFuel term repl n rest

/-- The matcher that `buildSearchTerm` produces for a literal (quoted,
non-regex) search term. -/
def literalMatcher (term : String) : Matcher where
  matchString content := hasSubstr term.data content.data
  replaceAllString content repl :=
    ⟨replaceAllFuel term.data repl.data content.data.length content.data⟩
  replaceAllLiteralString content repl :=
    ⟨replaceAllFuel term.data repl.data content.data.length content.data⟩

/-! ## The mutation engine (applyChangesetsToFile, lines 64-137) -/

/-- `searchMatch` (lines 157-163). -/
def searchMatch (content : String) (c : changeset) : Bool :=
  if c.Search.matchString content then true else false

/-- `replaceText` (lines 166-173). -/
def replaceText (opts : Opts) (content : String) (c : changeset) : String :=
  if opts.RegexBackref then c.Search.replaceAllString content c.Replace
  else c.Search.replaceAllLiteralString content c.Replace

/-- The two replacement granularities of the matched branch (lines 97-104):
whole-line modes substitute the replacement term for the line, replace mode
substitutes only inside the line. -/
def rewriteLine (opts : Opts) (c : changeset) (line : String) : String :=
  if opts.ModeIsReplaceLine || opts.ModeIsLineInFile then c.Replace
  else replaceText opts line c

/-- The inner changeset loop for one line (lines 82-110).  Returns the
changesets (with MatchFound flags updated in place, as the Go code writes
through the slice), the rewritten line, the `writeLine` flag and whether this
line set `writeBufferToFile`.  The once-remove branch `break`s, leaving the
remaining changesets unvisited. -/
def processLine (opts : Opts) : List changeset → String → List changeset × String × Bool × Bool
  | [], line => ([], line, true, false)
  | c :: css, line =>
    if opts.Once && c.MatchFound then
      if opts.OnceRemoveMatch && searchMatch line c then
        (c :: css, line, false, true)
      else
        let r := processLine opts css line
        (c :: r.1, r.2)
    else
      if searchMatch line c then
        let r := processLine opts css (rewriteLine opts c line)
        ({ c with MatchFound := true } :: r.1, r.2.1, r.2.2.1, true)
      else
        let r := processLine opts css line
        (c :: r.1, r.2)

/-- The outer `Readln` loop (lines 78-117): fold `processLine` over the lines,
appending `line ++ "\n"` to the buffer for every non-suppressed line. -/
def processLinesGo (opts : Opts) : List String → List changeset → String → Bool →
    List changeset × String × Bool
  | [], css, buf, wbf => (css, buf, wbf)
  | l :: ls, css, buf, wbf =>
    let r := processLine opts css l
    processLinesGo opts ls r.1 (if r.2.2.1 then buf ++ (r.2.1 ++ "\n") else buf)
      (wbf || r.2.2.2)

/-- The end-of-file lineinfile loop (lines 120-128): append the replacement
term of every changeset that never matched. -/
def lineInFileAppendGo : List changeset → String → Bool → String × Bool
  | [], buf, wbf => (buf, wbf)
  | c :: css, buf, wbf =>
    if !c.MatchFound then lineInFileAppendGo css (buf ++ (c.Replace ++ "\n")) true
    else lineInFileAppendGo css buf wbf

/-- `writeContentToFile` (lines 176-189).  `writeOk` models whether the
`ioutil.WriteFile` call would succeed; `origDisk` is the file's current
on-disk content and the third component of the result is its content
afterwards.  A failed write panics (line 184). -/
def writeContentToFile (opts : Opts) (writeOk : Bool) (f : fileitem) (content : String)
    (origDisk : String) : Except GoPanic (String × Bool × String) :=
  if opts.DryRun then .ok (content, true, origDisk)
  else if writeOk then .ok (f.Path ++ " found and replaced match\n", true, content)
  else .error GoPanic.writeError

/-- `applyChangesetsToFile` (lines 64-137).  `fileContent` is `none` when the
`os.Open` call fails, which panics (line 71).  The result carries the output
message, the status (`status` is initialised `true` and never cleared in the
source), the changesets as left by the run (the Go code mutates them through
the shared slice backing array), and the on-disk content after the call. -/
def applyChangesetsToFile (opts : Opts) (writeOk : Bool) (f : fileitem)
    (fileContent : Option String) (changesets : List changeset) :
    Except GoPanic (String × Bool × List changeset × String) :=
  match fileContent with
  | none => .error GoPanic.openError
  | some content =>
    let r := processLinesGo opts (goSplitLines content) changesets "" false
    let p := if opts.ModeIsLineInFile then lineInFileAppendGo r.1 r.2.1 r.2.2
             else (r.2.1, r.2.2)
    if p.2 then
      match writeContentToFile opts writeOk f p.1 content with
      | .ok q => .ok (q.1, q.2.1, r.1, q.2.2)
      | .error e => .error e
    else
      .ok (f.Path ++ " no match", true, r.1, content)

/-! ## Derived views of one engine run

These recompute pieces of `applyChangesetsToFile` so that theorems can speak
about the final `writeBufferToFile` flag, the buffer and the changesets of a
run without destructuring the `Except`. -/

/-- The final `writeBufferToFile` flag of a run over `content`. -/
def engineChanged (opts : Opts) (css : List changeset) (content : String) : Bool :=
  let r := processLinesGo opts (goSplitLines content) css "" false
  if opts.ModeIsLineInFile then (lineInFileAppendGo r.1 r.2.1 r.2.2).2 else r.2.2

/-- The final buffer of a run over `content` (what a write would put on disk). -/
def engineBuffer (opts : Opts) (css : List changeset) (content : String) : String :=
  let r := processLinesGo opts (goSplitLines content) css "" false
  if opts.ModeIsLineInFile then (lineInFileAppendGo r.1 r.2.1 r.2.2).1 else r.2.1

/-- The changesets as the run leaves them (MatchFound flags updated). -/
def engineChangesets (opts : Opts) (css : List changeset) (content : String) :
    List changeset :=
  (processLinesGo opts (goSplitLines content) css "" false).1

/-- Concatenation of lines, each terminated by a newline — the shape in which
the buffer accumulates (`buffer.WriteString(line + "\n")`, lines 113 and 124). -/
def concatLines : List String → String
  | [] => ""
  | l :: ls => l ++ "\n" ++ concatLines ls

/-- The list of lines the line loop appends to the buffer (claim-side view of
the buffer that `processLinesGo` builds as a single string). -/
def keptLines (opts : Opts) : List changeset → List String → List changeset × List String
  | css, [] => (css, [])
  | css, l :: ls =>
    let r := processLine opts css l
    let rest := keptLines opts r.1 ls
    (rest.1, (if r.2.2.1 then [r.2.1] else []) ++ rest.2)

/-- The full list of output lines of one run: the kept lines plus, in
lineinfile mode, the replacement of every changeset that never matched, in
declaration order. -/
def engineLines (opts : Opts) (css : List changeset) (content : String) : List String :=
  let k := keptLines opts css (goSplitLines content)
  k.2 ++ (if opts.ModeIsLineInFile then
            (k.1.filter (fun c => !c.MatchFound)).map (fun c => c.Replace)
          else [])

/-! ## Result projections -/

/-- Output message of a non-panicking run. -/
def okOutput : Except GoPanic (String × Bool × List changeset × String) → Option String
  | .ok r => some r.1
  | .error _ => none

/-- Status of a non-panicking run. -/
def okStatus : Except GoPanic (String × Bool × List changeset × String) → Option Bool
  | .ok r => some r.2.1
  | .error _ => none

/-- On-disk content after a non-panicking run. -/
def okDisk : Except GoPanic (String × Bool × List changeset × String) → Option String
  | .ok r => some r.2.2.2
  | .error _ => none

/-! ## The orchestrator (main, lines 342-431)

Lines 399-408 spawn one goroutine per file.  Each goroutine receives the
`changesets` slice by value, but a Go slice is a header pointing at a shared
backing array, so `changesets[i].MatchFound = true` (line 106) inside
`applyChangesetsToFile` is visible to every other goroutine.  Goroutine
executions interleave nondeterministically; `runTwoFilesSharedFirstThenSecond`
is the execution in which the first file's task runs to completion before the
second starts, threading the shared changeset array state from the first run
into the second. -/

/-- One possible execution of a two-file run: task 1 completes, then task 2
runs and observes the MatchFound flags task 1 left in the shared backing
array.  Yields `(output, status, disk)` for each file. -/
def runTwoFilesSharedFirstThenSecond (opts : Opts) (writeOk : Bool)
    (f1 : fileitem) (c1 : Option String) (f2 : fileitem) (c2 : Option String)
    (css : List changeset) :
    Except GoPanic ((String × Bool × String) × (String × Bool × String)) :=
  match applyChangesetsToFile opts writeOk f1 c1 css with
  | .error e => .error e
  | .ok r1 =>
    match applyChangesetsToFile opts writeOk f2 c2 r1.2.2.1 with
    | .error e => .error e
    | .ok r2 => .ok ((r1.1, r1.2.1, r1.2.2.2), (r2.1, r2.2.1, r2.2.2.2))

/-- Projection of the two-file execution for decidable statements. -/
def sharedRunOutputs :
    Except GoPanic ((String × Bool × String) × (String × Bool × String)) →
    Option ((String × Bool × String) × (String × Bool × String))
  | .ok p => some p
  | .error _ => none

/-- Each goroutine body (lines 403-407) sends exactly one `changeresult` on
the results channel; this is the list of those results, one per dispatched
file (sharing of the changeset array is irrelevant to the count). -/
def runTasksResults (opts : Opts) (writeOk : Bool) (css : List changeset)
    (files : List (fileitem × Option String)) :
    List (Except GoPanic (String × Bool × String)) :=
  files.map (fun fc =>
    (applyChangesetsToFile opts writeOk fc.1 fc.2 css).map
      (fun r => (r.1, r.2.1, r.2.2.2)))

/-- How many task results the main goroutine has received when it reaches
`os.Exit(0)` (line 430).  The `results` channel is unbuffered (line 394) and
the only receive is the verbose loop (lines 417-428), which runs until the
channel is closed after `wg.Wait()`; with verbose off, main falls through to
`os.Exit(0)` without a single receive. -/
def mainResultsConsumedBeforeExit (verbose : Bool) (numTasks : Nat) : Nat :=
  if verbose then numTasks else 0

/-! ## Claim-side specification of the apply-once policy -/

/-- What the spec says apply-once does for a single changeset: only the first
matching line is rewritten; afterwards, matching lines are dropped when
once-remove-match is active and otherwise left untouched. -/
def onceSpecLines (opts : Opts) (c : changeset) : List String → List String
  | [] => []
  | l :: ls =>
    if searchMatch l c then
      rewriteLine opts c l ::
        (if opts.OnceRemoveMatch then ls.filter (fun x => !searchMatch x c) else ls)
    else l :: onceSpecLines opts c ls

/-! ## Witness fixtures: concrete option sets and changesets -/

/-- Options of a plain `--mode=replace` run with every flag off. -/
def optsReplace : Opts := ⟨true, false, false, false, false, false, false, false⟩

/-- Options of `--mode=replace --once`. -/
def optsOnce : Opts := ⟨true, false, false, true, false, false, false, false⟩

/-- Options of `--mode=replace --once-remove-match` (which implies `--once`,
line 336). -/
def optsOnceRemove : Opts := ⟨true, false, false, true, true, false, false, false⟩

/-- Options of `--mode=lineinfile`. -/
def optsLineInFile : Opts := ⟨false, false, true, false, false, false, false, false⟩

/-- Options of `--mode=replace --dry-run`. -/
def optsDryRun : Opts := ⟨true, false, false, false, false, false, true, false⟩

/-- Changeset `-s a -r b` before any file has been processed. -/
def csetAB : changeset := ⟨literalMatcher "a", "b", false⟩

/-- Changeset `-s b -r c` before any file has been processed. -/
def csetBC : changeset := ⟨literalMatcher "b", "c", false⟩

/-- Changeset `-s abc -r Z` before any file has been processed. -/
def csetAbcZ : changeset := ⟨literalMatcher "abc", "Z", false⟩

/-- Changeset `-s zz -r add` (matching nothing in the witness files). -/
def csetZZ : changeset := ⟨literalMatcher "zz", "add", false⟩

/-- Changeset whose replacement embeds a newline. -/
def csetNewline : changeset := ⟨literalMatcher "a", "x\ny", false⟩

/-- Changeset `-s a -r XY` with a newline-free replacement. -/
def csetAXY : changeset := ⟨literalMatcher "a", "XY", false⟩

/-! ## Helper lemmas -/

theorem str_nil_append (s : String) : "" ++ s = s :=
  String.ext (by simp)

theorem str_append_nil (s : String) : s ++ "" = s :=
  String.ext (by simp)

@[simp]
theorem searchMatch_set_matchfound (l : String) (c : changeset) (b : Bool) :
    searchMatch l { c with MatchFound := b } = searchMatch l c := rfl

theorem concatLines_append (K1 K2 : List String) :
    concatLines (K1 ++ K2) = concatLines K1 ++ concatLines K2 := by
  induction K1 with
  | nil => simp [concatLines, str_nil_append]
  | cons l ls ih => simp [concatLines, ih, String.append_assoc]

/-- A line on which no changeset matches passes through the changeset loop
untouched: flags unchanged, line unchanged, written, nothing set. -/
theorem processLine_noMatch (opts : Opts) (css : List changeset) (line : String)
    (h : ∀ c ∈ css, searchMatch line c = false) :
    processLine opts css line = (css, line, true, false) := by
  induction css with
  | nil => rfl
  | cons c cs ih =>
    have hc : searchMatch line c = false := h c (by simp)
    have hcs : ∀ x ∈ cs, searchMatch line x = false := fun x hx => h x (by simp [hx])
    simp [processLine, hc, ih hcs]

/-- A file none of whose lines matches any changeset leaves the state
untouched: every line is copied to the buffer unchanged and
`writeBufferToFile` is never set. -/
theorem processLinesGo_noMatch (opts : Opts) (ls : List String) (css : List changeset)
    (buf : String) (wbf : Bool)
    (h : ∀ l ∈ ls, ∀ c ∈ css, searchMatch l c = false) :
    processLinesGo opts ls css buf wbf = (css, buf ++ concatLines ls, wbf) := by
  induction ls generalizing buf with
  | nil => simp [processLinesGo, concatLines, str_append_nil]
  | cons l ls ih =>
    have hl : ∀ c ∈ css, searchMatch l c = false := h l (by simp)
    have hls : ∀ x ∈ ls, ∀ c ∈ css, searchMatch x c = false :=
      fun x hx => h x (by simp [hx])
    simp [processLinesGo, processLine_noMatch opts css l hl, ih _ hls, concatLines,
      String.append_assoc]

/-- The buffer that `processLinesGo` accumulates is exactly the kept lines,
each terminated by a newline, appended to the incoming buffer; the changesets
it returns are those `keptLines` computes. -/
theorem processLinesGo_eq_keptLines (opts : Opts) (ls : List String) :
    ∀ (css : List changeset) (buf : String) (wbf : Bool),
      (processLinesGo opts ls css buf wbf).1 = (keptLines opts css ls).1 ∧
      (processLinesGo opts ls css buf wbf).2.1 =
        buf ++ concatLines (keptLines opts css ls).2 := by
  induction ls with
  | nil => intro css buf wbf; simp [processLinesGo, keptLines, concatLines, str_append_nil]
  | cons l ls ih =>
    intro css buf wbf
    simp only [processLinesGo, keptLines]
    rcases ih (processLine opts css l).1
      (if (processLine opts css l).2.2.1 then buf ++ ((processLine opts css l).2.1 ++ "\n")
       else buf) (wbf || (processLine opts css l).2.2.2) with ⟨h1, h2⟩
    refine ⟨h1, h2.trans ?_⟩
    cases hwl : (processLine opts css l).2.2.1 <;>
      simp [hwl, concatLines, String.append_assoc]

/-- The lineinfile end-of-file loop appends the replacement of every
still-unmatched changeset, in declaration order. -/
theorem lineInFileAppendGo_buffer (css : List changeset) :
    ∀ (buf : String) (wbf : Bool),
      (lineInFileAppendGo css buf wbf).1 =
        buf ++ concatLines ((css.filter (fun c => !c.MatchFound)).map
          (fun c => c.Replace)) := by
  induction css with
  | nil => intro buf wbf; simp [lineInFileAppendGo, concatLines, str_append_nil]
  | cons c cs ih =>
    intro buf wbf
    cases hm : c.MatchFound <;>
      simp [lineInFileAppendGo, hm, ih, concatLines, String.append_assoc]

/-- The final buffer of a run is the concatenation of its output lines, each
terminated by a newline. -/
theorem engineBuffer_eq_concatLines (opts : Opts) (css : List changeset)
    (content : String) :
    engineBuffer opts css content = concatLines (engineLines opts css content) := by
  unfold engineBuffer engineLines
  rcases processLinesGo_eq_keptLines opts (goSplitLines content) css "" false with ⟨h1, h2⟩
  cases hM : opts.ModeIsLineInFile <;>
    simp [hM, h1, h2, lineInFileAppendGo_buffer, str_nil_append, concatLines_append,
      List.append_nil]

/-- The changesets a run returns are those of the kept-lines pass. -/
theorem engineChangesets_eq_keptLines (opts : Opts) (css : List changeset)
    (content : String) :
    engineChangesets opts css content = (keptLines opts css (goSplitLines content)).1 :=
  (processLinesGo_eq_keptLines opts (goSplitLines content) css "" false).1

/-- `applyChangesetsToFile` on a readable file, restated through the derived
views of the run. -/
theorem applyChangesetsToFile_view (opts : Opts) (writeOk : Bool) (f : fileitem)
    (content : String) (css : List changeset) :
    applyChangesetsToFile opts writeOk f (some content) css =
      if engineChanged opts css content then
        match writeContentToFile opts writeOk f (engineBuffer opts css content) content with
        | .ok q => .ok (q.1, q.2.1, engineChangesets opts css content, q.2.2)
        | .error e => .error e
      else .ok (f.Path ++ " no match", true, engineChangesets opts css content, content) := by
  unfold applyChangesetsToFile engineChanged engineBuffer engineChangesets
  cases hM : opts.ModeIsLineInFile <;> simp [hM]

theorem concatLines_cons_data (l : String) (ls : List String) :
    (concatLines (l :: ls)).data = l.data ++ '\n' :: (concatLines ls).data := by
  have hnl : ("\n" : String).data = ['\n'] := rfl
  simp [concatLines, hnl]

theorem concatLines_data_ne_nil (K : List String) (h : K ≠ []) :
    (concatLines K).data ≠ [] := by
  cases K with
  | nil => exact absurd rfl h
  | cons l ls => simp [concatLines_cons_data]

/-- Every nonempty concatenation of newline-terminated lines ends in a
newline character. -/
theorem concatLines_getLast (K : List String) (h : K ≠ []) :
    (concatLines K).data.getLast? = some '\n' := by
  induction K with
  | nil => exact absurd rfl h
  | cons l ls ih =>
    rw [concatLines_cons_data]
    cases ls with
    | nil =>
      have : (concatLines ([] : List String)).data = [] := rfl
      rw [this]
      exact List.getLast?_concat _
    | cons m ms =>
      rw [List.getLast?_append]
      have hne := concatLines_data_ne_nil (m :: ms) (by simp)
      have : ('\n' :: (concatLines (m :: ms)).data).getLast? = some '\n' := by
        have h2 := ih (by simp)
        rw [List.getLast?_cons, h2]
        rfl
      rw [this]
      rfl

/-- Splitting a chunk that contains no newline followed by an explicit
newline emits exactly that chunk (modulo the CR strip). -/
theorem goLinesAux_emit (l : List Char) (hl : '\n' ∉ l) :
    ∀ (cur rest : List Char),
      goLinesAux cur (l ++ '\n' :: rest) = dropCR (cur ++ l) :: goLinesAux [] rest := by
  induction l with
  | nil => intro cur rest; simp [goLinesAux]
  | cons c cs ih =>
    intro cur rest
    have hc : c ≠ '\n' := fun h => hl (by simp [h])
    have hcs : '\n' ∉ cs := fun h => hl (by simp [h])
    rw [List.cons_append, goLinesAux, if_neg hc, ih hcs (cur ++ [c]) rest,
      List.append_assoc]
    rfl

/-- Lines produced by the splitter contain no newline character. -/
theorem goLinesAux_nfree (input : List Char) :
    ∀ (cur : List Char), '\n' ∉ cur →
      ∀ l ∈ goLinesAux cur input, '\n' ∉ l := by
  induction input with
  | nil =>
    intro cur hcur l hm
    simp only [goLinesAux] at hm
    by_cases hc : cur = []
    · simp [hc] at hm
    · rw [if_neg hc] at hm
      simp at hm
      exact hm ▸ hcur
  | cons c rest ih =>
    intro cur hcur l hm
    simp only [goLinesAux] at hm
    by_cases hc : c = '\n'
    · rw [if_pos hc] at hm
      rcases List.mem_cons.mp hm with h | h
      · subst h
        intro hmem
        unfold dropCR at hmem
        split at hmem
        · exact hcur (List.mem_of_mem_dropLast hmem)
        · exact hcur hmem
      · exact ih [] (by simp) l h
    · rw [if_neg hc] at hm
      refine ih (cur ++ [c]) ?_ l hm
      intro hmem
      rcases List.mem_append.mp hmem with h | h
      · exact hcur h
      · simp at h
        exact hc h.symm

theorem goSplitLines_nfree (s : String) :
    ∀ l ∈ goSplitLines s, '\n' ∉ l.data := by
  intro l hm
  unfold goSplitLines at hm
  rcases List.mem_map.mp hm with ⟨ld, hld, hmk⟩
  have := goLinesAux_nfree s.data [] (by simp) ld hld
  rw [← hmk]
  exact this

/-- Splitting the concatenation of newline-free lines recovers as many lines
as went in. -/
theorem goSplitLines_concatLines_length (K : List String)
    (h : ∀ s ∈ K, '\n' ∉ s.data) :
    (goSplitLines (concatLines K)).length = K.length := by
  induction K with
  | nil => rfl
  | cons l ls ih =>
    have hl : '\n' ∉ l.data := h l (by simp)
    have hls : ∀ s ∈ ls, '\n' ∉ s.data := fun s hs => h s (by simp [hs])
    unfold goSplitLines
    rw [concatLines_cons_data]
    have := goLinesAux_emit l.data hl [] (concatLines ls).data
    simp only [List.nil_append] at this
    rw [this]
    have ihx := ih hls
    unfold goSplitLines at ihx
    simpa using ihx

/-- `replaceAllFuel` introduces no character that is in neither the original
content nor the replacement; in particular it cannot invent a newline. -/
theorem replaceAllFuel_nfree (term repl : List Char) (hr : '\n' ∉ repl) :
    ∀ (n : Nat) (l : List Char), '\n' ∉ l → '\n' ∉ replaceAllFuel term repl n l := by
  intro n
  induction n with
  | zero => intro l hle; exact hle
  | succ n ih =>
    intro l hle
    cases l with
    | nil => simp [replaceAllFuel]
    | cons c rest =>
      have hc : ¬ c = '\n' := fun h => hle (by simp [h])
      have hrest : '\n' ∉ rest := fun h => hle (by simp [h])
      unfold replaceAllFuel
      split
      · intro hmem
        rcases List.mem_append.mp hmem with h | h
        · exact hr h
        · exact ih _ (fun hd => hrest (List.drop_subset _ _ hd)) h
      · intro hmem
        rcases List.mem_cons.mp hmem with h | h
        · exact hc h.symm
        · exact ih rest hrest h

/-- After a changeset has already matched, apply-once leaves every further
line untouched, dropping exactly the lines that still match when
once-remove-match is active. -/
theorem processLinesGo_once_matched (opts : Opts) (c : changeset)
    (hOnce : opts.Once = true) (hMF : c.MatchFound = true) (ls : List String) :
    ∀ (buf : String) (wbf : Bool),
      (processLinesGo opts ls [c] buf wbf).1 = [c] ∧
      (processLinesGo opts ls [c] buf wbf).2.1 =
        buf ++ concatLines (ls.filter
          (fun l => !(opts.OnceRemoveMatch && searchMatch l c))) := by
  induction ls with
  | nil => intro buf wbf; simp [processLinesGo, concatLines, str_append_nil]
  | cons l ls ih =>
    intro buf wbf
    cases hrm : (opts.OnceRemoveMatch && searchMatch l c)
    · have hpl : processLine opts [c] l = ([c], l, true, false) := by
        simp [processLine, hOnce, hMF, hrm]
      have hfilter :
          List.filter (fun x => !(opts.OnceRemoveMatch && searchMatch x c)) (l :: ls) =
            l :: List.filter (fun x => !(opts.OnceRemoveMatch && searchMatch x c)) ls := by
        simp only [List.filter_cons, hrm]
        simp
      have ih2 := ih (buf ++ (l ++ "\n")) wbf
      refine ⟨?_, ?_⟩
      · simp only [processLinesGo, hpl]
        simpa using ih2.1
      · simp only [processLinesGo, hpl]
        rw [hfilter]
        simpa [concatLines, String.append_assoc] using ih2.2
    · have hpl : processLine opts [c] l = ([c], l, false, true) := by
        simp [processLine, hOnce, hMF, hrm]
      have hfilter :
          List.filter (fun x => !(opts.OnceRemoveMatch && searchMatch x c)) (l :: ls) =
            List.filter (fun x => !(opts.OnceRemoveMatch && searchMatch x c)) ls := by
        simp only [List.filter_cons, hrm]
        simp
      have ih2 := ih buf true
      refine ⟨?_, ?_⟩
      · simp only [processLinesGo, hpl]
        simpa using ih2.1
      · simp only [processLinesGo, hpl]
        rw [hfilter]
        simpa using ih2.2

/-- A single-changeset apply-once run produces exactly the buffer that the
spec describes (`onceSpecLines`). -/
theorem processLinesGo_once_spec (opts : Opts) (c : changeset)
    (hOnce : opts.Once = true) (ls : List String) :
    ∀ (buf : String) (wbf : Bool), c.MatchFound = false →
      (processLinesGo opts ls [c] buf wbf).2.1 =
        buf ++ concatLines (onceSpecLines opts c ls) := by
  induction ls with
  | nil =>
    intro buf wbf hMF
    simp [processLinesGo, onceSpecLines, concatLines, str_append_nil]
  | cons l ls ih =>
    intro buf wbf hMF
    cases hm : searchMatch l c
    · have hpl : processLine opts [c] l = ([c], l, true, false) := by
        simp [processLine, hMF, hm]
      simp [processLinesGo, hpl, onceSpecLines, hm, ih _ _ hMF, concatLines,
        String.append_assoc]
    · have hpl : processLine opts [c] l =
          ([{ c with MatchFound := true }], rewriteLine opts c l, true, true) := by
        simp [processLine, hMF, hm]
      have hm2 := (processLinesGo_once_matched opts { c with MatchFound := true } hOnce rfl
        ls (buf ++ (rewriteLine opts c l ++ "\n")) true).2
      cases hrm : opts.OnceRemoveMatch
      · have hfilter :
            List.filter
              (fun x => !(opts.OnceRemoveMatch && searchMatch x { c with MatchFound := true }))
              ls = ls := by
          simp [hrm, List.filter_true]
        rw [hfilter] at hm2
        simp only [processLinesGo, hpl]
        simp only [onceSpecLines, hm, hrm]
        simpa [concatLines, String.append_assoc] using hm2
      · have hfilter :
            List.filter
              (fun x => !(opts.OnceRemoveMatch && searchMatch x { c with MatchFound := true }))
              ls = List.filter (fun x => !searchMatch x c) ls := by
          simp [hrm]
        rw [hfilter] at hm2
        simp only [processLinesGo, hpl]
        simp only [onceSpecLines, hm, hrm]
        simpa [concatLines, String.append_assoc] using hm2

/-- The lineinfile end-of-file loop on all-unmatched changesets appends every
replacement, in declaration order, and reports the buffer as changed. -/
theorem lineInFileAppendGo_all_unmatched (css : List changeset) :
    (∀ c ∈ css, c.MatchFound = false) → css ≠ [] →
    ∀ (buf : String) (wbf : Bool),
      lineInFileAppendGo css buf wbf =
        (buf ++ concatLines (css.map (fun c => c.Replace)), true) := by
  induction css with
  | nil => intro _ hne; exact absurd rfl hne
  | cons c cs ih =>
    intro h _ buf wbf
    have hc : c.MatchFound = false := h c (by simp)
    by_cases hcs : cs = []
    · subst hcs
      simp [lineInFileAppendGo, hc, concatLines, str_append_nil]
    · have ihx := ih (fun x hx => h x (by simp [hx])) hcs (buf ++ (c.Replace ++ "\n")) true
      simp [lineInFileAppendGo, hc, ihx, concatLines, String.append_assoc]

/-! ## Claims -/

/-- Claim C3: a file in which no changeset pattern matches any line (outside
lineinfile mode) is left untouched: no write happens, the on-disk content
stays byte-for-byte the input, the reported outcome is the "no match"
message with success status, and no MatchFound flag is set. -/
theorem C3_zero_match_noop (opts : Opts) (writeOk : Bool) (f : fileitem)
    (content : String) (css : List changeset)
    (hMode : opts.ModeIsLineInFile = false)
    (h : ∀ l ∈ goSplitLines content, ∀ c ∈ css, searchMatch l c = false) :
    applyChangesetsToFile opts writeOk f (some content) css =
      .ok (f.Path ++ " no match", true, css, content) := by
  simp [applyChangesetsToFile,
    processLinesGo_noMatch opts (goSplitLines content) css "" false h, hMode]

/-- Witness for C3 at a concrete input. -/
theorem C3_zero_match_noop_witness :
    optsReplace.ModeIsLineInFile = false ∧
    (∀ l ∈ goSplitLines "hello\n", ∀ c ∈ [csetZZ], searchMatch l c = false) ∧
    okOutput (applyChangesetsToFile optsReplace true ⟨"f"⟩ (some "hello\n") [csetZZ]) =
      some "f no match" ∧
    okDisk (applyChangesetsToFile optsReplace true ⟨"f"⟩ (some "hello\n") [csetZZ]) =
      some "hello\n" := by
  refine ⟨rfl, by decide, ?_, ?_⟩ <;>
    rw [C3_zero_match_noop optsReplace true ⟨"f"⟩ "hello\n" [csetZZ] rfl (by decide)] <;>
    rfl

/-- Claim C4: under apply-once, a changeset rewrites at most the first line
that matches it; later matching lines are kept untouched, or dropped when
once-remove-match is active (`onceSpecLines` states exactly this policy).
Moreover a drop marks the buffer changed and stops the changeset loop for
that line, leaving the remaining changesets unvisited. -/
theorem C4_apply_once (opts : Opts) (c : changeset) (ls : List String)
    (hOnce : opts.Once = true) (hMF : c.MatchFound = false) :
    (processLinesGo opts ls [c] "" false).2.1 = concatLines (onceSpecLines opts c ls) ∧
    (∀ (c1 c2 : changeset) (cs : List changeset) (line : String),
      opts.OnceRemoveMatch = true → c1.MatchFound = true → searchMatch line c1 = true →
      processLine opts (c1 :: c2 :: cs) line = (c1 :: c2 :: cs, line, false, true)) := by
  constructor
  · have := processLinesGo_once_spec opts c hOnce ls "" false hMF
    rwa [str_nil_append] at this
  · intro c1 c2 cs line hrm hmf1 hm1
    simp [processLine, hOnce, hrm, hmf1, hm1]

/-- Witness for C4: a three-line file whose every line matches; only the
first is rewritten, and with once-remove-match the other two are dropped. -/
theorem C4_apply_once_witness :
    optsOnce.Once = true ∧ csetAB.MatchFound = false ∧
    (processLinesGo optsOnce ["a", "a", "a"] [csetAB] "" false).2.1 =
      concatLines (onceSpecLines optsOnce csetAB ["a", "a", "a"]) ∧
    concatLines (onceSpecLines optsOnce csetAB ["a", "a", "a"]) = "b\na\na\n" ∧
    (processLinesGo optsOnceRemove ["a", "a", "a"] [csetAB] "" false).2.1 =
      concatLines (onceSpecLines optsOnceRemove csetAB ["a", "a", "a"]) ∧
    concatLines (onceSpecLines optsOnceRemove csetAB ["a", "a", "a"]) = "b\n" :=
  ⟨rfl, rfl,
    (C4_apply_once optsOnce csetAB ["a", "a", "a"] rfl rfl).1, by decide,
    (C4_apply_once optsOnceRemove csetAB ["a", "a", "a"] rfl rfl).1, by decide⟩

/-- Claim C5: in lineinfile mode, a file (even an empty one) in which none of
the changesets matches any line gets exactly one appended line per changeset,
each the changeset replacement text, in declaration order, and the rewritten
content is flushed with the "found and replaced" message. -/
theorem C5_lineinfile_appends (opts : Opts) (f : fileitem) (content : String)
    (css : List changeset)
    (hMode : opts.ModeIsLineInFile = true) (hDry : opts.DryRun = false)
    (hMF : ∀ c ∈ css, c.MatchFound = false) (hne : css ≠ [])
    (hNo : ∀ l ∈ goSplitLines content, ∀ c ∈ css, searchMatch l c = false) :
    applyChangesetsToFile opts true f (some content) css =
      .ok (f.Path ++ " found and replaced match\n", true, css,
        concatLines (goSplitLines content) ++
          concatLines (css.map (fun c => c.Replace))) := by
  simp [applyChangesetsToFile,
    processLinesGo_noMatch opts (goSplitLines content) css "" false hNo, hMode,
    str_nil_append, lineInFileAppendGo_all_unmatched css hMF hne, writeContentToFile, hDry]

/-- Witness for C5 at an empty (zero-line) file: the ensure-line-exists step
still runs and appends the replacement. -/
theorem C5_lineinfile_appends_witness :
    optsLineInFile.ModeIsLineInFile = true ∧
    okDisk (applyChangesetsToFile optsLineInFile true ⟨"f"⟩ (some "") [csetZZ]) =
      some "add\n" ∧
    okOutput (applyChangesetsToFile optsLineInFile true ⟨"f"⟩ (some "") [csetZZ]) =
      some "f found and replaced match\n" := by
  refine ⟨rfl, ?_, ?_⟩ <;>
    rw [C5_lineinfile_appends optsLineInFile ⟨"f"⟩ "" [csetZZ] rfl rfl (by decide)
      (by simp) (by decide)] <;>
    rfl

/-- Claim C6: the changesets are applied to a line in declaration order, each
pattern being evaluated against the line as already rewritten by the earlier
changesets — the loop computes a left fold of single-changeset application
over the changeset list. -/
theorem C6_sequential_changesets (opts : Opts) (hOnce : opts.Once = false)
    (css : List changeset) (line : String) :
    (processLine opts css line).2.1 =
      css.foldl (fun l c => if searchMatch l c then rewriteLine opts c l else l) line := by
  induction css generalizing line with
  | nil => rfl
  | cons c cs ih =>
    cases hm : searchMatch line c <;>
      simp [processLine, hOnce, hm, ih, List.foldl_cons]

/-- Witness for C6: with `a -> b` then `b -> c`, the line `a` becomes `c`:
the second changeset matched the rewritten line even though it does not
match the original. -/
theorem C6_sequential_changesets_witness :
    optsReplace.Once = false ∧
    (processLine optsReplace [csetAB, csetBC] "a").2.1 =
      List.foldl (fun l c => if searchMatch l c then rewriteLine optsReplace c l else l)
        "a" [csetAB, csetBC] ∧
    List.foldl (fun l c => if searchMatch l c then rewriteLine optsReplace c l else l)
        "a" [csetAB, csetBC] = "c" ∧
    searchMatch "a" csetBC = false :=
  ⟨rfl, C6_sequential_changesets optsReplace rfl [csetAB, csetBC] "a", by decide, by decide⟩

/-- The derived views of a run depend on the content only through its line
split. -/
theorem engine_views_congr (opts : Opts) (css : List changeset) {c1 c2 : String}
    (h : goSplitLines c1 = goSplitLines c2) :
    engineChanged opts css c1 = engineChanged opts css c2 ∧
    engineBuffer opts css c1 = engineBuffer opts css c2 ∧
    engineChangesets opts css c1 = engineChangesets opts css c2 := by
  unfold engineChanged engineBuffer engineChangesets
  rw [h]
  exact ⟨rfl, rfl, rfl⟩

/-- Claim C8: with dry-run configured no write ever happens — the on-disk
content of the input file is unchanged — while the run still succeeds and,
when a match occurred, reports the would-be rewritten content as its
outcome. -/
theorem C8_dry_run (opts : Opts) (writeOk : Bool) (f : fileitem) (content : String)
    (css : List changeset) (hDry : opts.DryRun = true) :
    okDisk (applyChangesetsToFile opts writeOk f (some content) css) = some content ∧
    okStatus (applyChangesetsToFile opts writeOk f (some content) css) = some true ∧
    (engineChanged opts css content = true →
      okOutput (applyChangesetsToFile opts writeOk f (some content) css) =
        some (engineBuffer opts css content)) := by
  cases hCh : engineChanged opts css content <;>
    simp [applyChangesetsToFile_view, hCh, writeContentToFile, hDry, okDisk, okStatus,
      okOutput]

/-- Witness for C8: a dry run over a matching file leaves the disk unchanged
even though writing would fail, and reports the rewritten content. -/
theorem C8_dry_run_witness :
    optsDryRun.DryRun = true ∧
    okDisk (applyChangesetsToFile optsDryRun false ⟨"f"⟩ (some "a\n") [csetAB]) =
      some "a\n" ∧
    engineChanged optsDryRun [csetAB] "a\n" = true ∧
    okOutput (applyChangesetsToFile optsDryRun false ⟨"f"⟩ (some "a\n") [csetAB]) =
      some "b\n" := by
  have h := C8_dry_run optsDryRun false ⟨"f"⟩ "a\n" [csetAB] rfl
  refine ⟨rfl, h.1, by decide, ?_⟩
  rw [h.2.2 (by decide)]
  decide

/-- Claim C9: an open failure or a write failure panics, aborting the whole
run, rather than yielding a per-file failure result; in fact no engine result
ever carries a failure status. -/
theorem C9_io_failure_fatal :
    (∀ (opts : Opts) (writeOk : Bool) (f : fileitem) (css : List changeset),
      applyChangesetsToFile opts writeOk f none css = .error GoPanic.openError) ∧
    (∀ (opts : Opts) (f : fileitem) (content : String) (css : List changeset),
      opts.DryRun = false → engineChanged opts css content = true →
      applyChangesetsToFile opts false f (some content) css =
        .error GoPanic.writeError) ∧
    (∀ (opts : Opts) (writeOk : Bool) (f : fileitem) (oc : Option String)
      (css : List changeset),
      okStatus (applyChangesetsToFile opts writeOk f oc css) ≠ some false) := by
  refine ⟨fun opts wOk f css => rfl, ?_, ?_⟩
  · intro opts f content css hDry hCh
    simp [applyChangesetsToFile_view, hCh, writeContentToFile, hDry]
  · intro opts wOk f oc css
    cases oc with
    | none => simp [applyChangesetsToFile, okStatus]
    | some content =>
      rw [applyChangesetsToFile_view]
      cases hCh : engineChanged opts css content
      · simp [okStatus]
      · cases hD : opts.DryRun
        · cases wOk <;> simp [writeContentToFile, hD, okStatus]
        · simp [writeContentToFile, hD, okStatus]

/-- Witness for C9 at concrete inputs: an unreadable file and a failing
write both abort with a panic, and a successful run carries a success
status. -/
theorem C9_io_failure_fatal_witness :
    applyChangesetsToFile optsReplace true ⟨"f"⟩ none [csetAB] =
      .error GoPanic.openError ∧
    (optsReplace.DryRun = false ∧ engineChanged optsReplace [csetAB] "a\n" = true ∧
      applyChangesetsToFile optsReplace false ⟨"f"⟩ (some "a\n") [csetAB] =
        .error GoPanic.writeError) ∧
    okStatus (applyChangesetsToFile optsReplace true ⟨"f"⟩ (some "a\n") [csetAB]) ≠
      some false :=
  ⟨C9_io_failure_fatal.1 optsReplace true ⟨"f"⟩ [csetAB],
   ⟨rfl, by decide,
    C9_io_failure_fatal.2.1 optsReplace ⟨"f"⟩ "a\n" [csetAB] rfl (by decide)⟩,
   C9_io_failure_fatal.2.2 optsReplace true ⟨"f"⟩ (some "a\n") [csetAB]⟩

/-- Claim C10: whenever the engine rewrites a file, the written content is
the concatenation of the processed lines, each terminated by a newline — so
it always ends in a newline (an unterminated final input line gains one) —
and the CRLF/LF distinction of the input is erased even on lines no pattern
matched, because the splitter strips either terminator. -/
theorem C10_newline_normalisation (opts : Opts) (f : fileitem) (css : List changeset) :
    (∀ content : String, opts.DryRun = false → engineChanged opts css content = true →
      applyChangesetsToFile opts true f (some content) css =
        .ok (f.Path ++ " found and replaced match\n", true,
          engineChangesets opts css content,
          concatLines (engineLines opts css content)) ∧
      (engineLines opts css content ≠ [] →
        (concatLines (engineLines opts css content)).data.getLast? = some '\n')) ∧
    (∀ a b : String, '\n' ∉ a.data → a.data.getLast? ≠ some '\r' →
      goSplitLines (a ++ "\r\n" ++ b) = goSplitLines (a ++ "\n" ++ b) ∧
      (opts.DryRun = false → engineChanged opts css (a ++ "\n" ++ b) = true →
        ∀ writeOk : Bool,
          applyChangesetsToFile opts writeOk f (some (a ++ "\r\n" ++ b)) css =
            applyChangesetsToFile opts writeOk f (some (a ++ "\n" ++ b)) css)) := by
  constructor
  · intro content hDry hCh
    refine ⟨?_, fun hne => concatLines_getLast _ hne⟩
    rw [applyChangesetsToFile_view]
    simp [hCh, writeContentToFile, hDry, engineBuffer_eq_concatLines]
  · intro a b ha har
    have hsplit : goSplitLines (a ++ "\r\n" ++ b) = goSplitLines (a ++ "\n" ++ b) := by
      unfold goSplitLines
      have hd1 : (a ++ "\r\n" ++ b).data = (a.data ++ ['\r']) ++ '\n' :: b.data := by
        simp
      have hd2 : (a ++ "\n" ++ b).data = a.data ++ '\n' :: b.data := by
        simp
      rw [hd1, hd2]
      have hfree : '\n' ∉ a.data ++ ['\r'] := by
        intro hmem
        rcases List.mem_append.mp hmem with h | h
        · exact ha h
        · simp at h
      rw [goLinesAux_emit (a.data ++ ['\r']) hfree [] b.data,
        goLinesAux_emit a.data ha [] b.data]
      have hcr : dropCR ([] ++ (a.data ++ ['\r'])) = a.data := by
        simp [dropCR, List.getLast?_concat]
      have hncr : dropCR ([] ++ a.data) = a.data := by
        simp only [List.nil_append]
        unfold dropCR
        rw [if_neg har]
      rw [hcr, hncr]
    refine ⟨hsplit, ?_⟩
    intro hDry hCh writeOk
    rcases engine_views_congr opts css hsplit with ⟨hc, hb, hcs⟩
    rw [applyChangesetsToFile_view, applyChangesetsToFile_view, hc, hb, hcs]
    cases writeOk <;> simp [hCh, writeContentToFile, hDry]

/-- Witness for C10: a CRLF-terminated unmatched line and an unterminated
matching final line; the rewritten file is LF-normalised and gains a final
newline. -/
theorem C10_newline_normalisation_witness :
    engineChanged optsReplace [csetAbcZ] "x\r\nabc" = true ∧
    okDisk (applyChangesetsToFile optsReplace true ⟨"f"⟩ (some "x\r\nabc") [csetAbcZ]) =
      some "x\nZ\n" ∧
    (concatLines (engineLines optsReplace [csetAbcZ] "x\r\nabc")).data.getLast? =
      some '\n' ∧
    goSplitLines ("x" ++ "\r\n" ++ "abc") = goSplitLines ("x" ++ "\n" ++ "abc") := by
  have h := C10_newline_normalisation optsReplace ⟨"f"⟩ [csetAbcZ]
  refine ⟨by decide, ?_, (h.1 "x\r\nabc" rfl (by decide)).2 (by decide),
    (h.2 "x" "abc" (by decide) (by decide)).1⟩
  rw [(h.1 "x\r\nabc" rfl (by decide)).1]
  decide

/-- Changesets whose matchers are compiled literal terms and whose
replacement texts contain no newline. -/
def litNewlineFree (css : List changeset) : Prop :=
  ∀ c ∈ css, (∃ t, c.Search = literalMatcher t) ∧ '\n' ∉ c.Replace.data

/-- In replace mode with literal matchers, newline-free replacements, no
backreferences and no once-remove dropping, the changeset loop always writes
the line, keeps the changesets literal/newline-free, and cannot introduce a
newline into the line. -/
theorem processLine_literal_nfree (opts : Opts)
    (hM1 : opts.ModeIsReplaceLine = false) (hM2 : opts.ModeIsLineInFile = false)
    (hRem : opts.OnceRemoveMatch = false) (hBR : opts.RegexBackref = false) :
    ∀ (css : List changeset) (line : String), litNewlineFree css → '\n' ∉ line.data →
      (processLine opts css line).2.2.1 = true ∧
      litNewlineFree (processLine opts css line).1 ∧
      '\n' ∉ ((processLine opts css line).2.1).data := by
  intro css
  induction css with
  | nil =>
    intro line _ hline
    exact ⟨rfl, fun c hc => absurd hc (List.not_mem_nil c), hline⟩
  | cons c cs ih =>
    intro line hcs hline
    have hc := hcs c (by simp)
    have hcs' : litNewlineFree cs := fun x hx => hcs x (by simp [hx])
    have hlift : ∀ (r : List changeset × String × Bool × Bool) (c' : changeset),
        (∃ t, c'.Search = literalMatcher t) ∧ '\n' ∉ c'.Replace.data →
        litNewlineFree r.1 → litNewlineFree (c' :: r.1) := by
      intro r c' hc' hr x hx
      rcases List.mem_cons.mp hx with h | h
      · exact h ▸ hc'
      · exact hr x h
    cases hOn : (opts.Once && c.MatchFound)
    · cases hm : searchMatch line c
      · have h := ih line hcs' hline
        simp only [processLine, hOn, hm, Bool.false_eq_true, if_false]
        exact ⟨h.1, hlift _ c hc h.2.1, h.2.2⟩
      · have hline' : '\n' ∉ (rewriteLine opts c line).data := by
          unfold rewriteLine
          rw [hM1, hM2]
          simp only [Bool.or_self, Bool.false_eq_true, if_false]
          unfold replaceText
          rw [hBR]
          simp only [Bool.false_eq_true, if_false]
          rcases hc.1 with ⟨t, ht⟩
          rw [ht]
          exact replaceAllFuel_nfree t.data c.Replace.data hc.2 _ line.data hline
        have h := ih (rewriteLine opts c line) hcs' hline'
        simp only [processLine, hOn, hm, Bool.false_eq_true, if_false,
          eq_self_iff_true, if_true]
        exact ⟨h.1, hlift _ { c with MatchFound := true } ⟨hc.1, hc.2⟩ h.2.1, h.2.2⟩
    · have hdrop : (opts.OnceRemoveMatch && searchMatch line c) = false := by
        rw [hRem]
        rfl
      have h := ih line hcs' hline
      simp only [processLine, hOn, hdrop, Bool.false_eq_true, if_false,
        eq_self_iff_true, if_true]
      exact ⟨h.1, hlift _ c hc h.2.1, h.2.2⟩

/-- Under the same restrictions, the whole line pass keeps exactly one output
line per input line, all newline-free. -/
theorem processLinesGo_literal_nfree (opts : Opts)
    (hM1 : opts.ModeIsReplaceLine = false) (hM2 : opts.ModeIsLineInFile = false)
    (hRem : opts.OnceRemoveMatch = false) (hBR : opts.RegexBackref = false) :
    ∀ (ls : List String) (css : List changeset) (buf : String) (wbf : Bool),
      litNewlineFree css → (∀ l ∈ ls, '\n' ∉ l.data) →
      ∃ K, (processLinesGo opts ls css buf wbf).2.1 = buf ++ concatLines K ∧
        K.length = ls.length ∧ (∀ s ∈ K, '\n' ∉ s.data) := by
  intro ls
  induction ls with
  | nil =>
    intro css buf wbf _ _
    exact ⟨[], by simp [processLinesGo, concatLines, str_append_nil], rfl,
      by intro s hs; simp at hs⟩
  | cons l ls ih =>
    intro css buf wbf hcs hls
    have hl := hls l (by simp)
    have hls' : ∀ x ∈ ls, '\n' ∉ x.data := fun x hx => hls x (by simp [hx])
    have hp := processLine_literal_nfree opts hM1 hM2 hRem hBR css l hcs hl
    rcases ih (processLine opts css l).1
      (buf ++ ((processLine opts css l).2.1 ++ "\n"))
      (wbf || (processLine opts css l).2.2.2) hp.2.1 hls' with ⟨K, hK, hlen, hfree⟩
    refine ⟨(processLine opts css l).2.1 :: K, ?_, by simp [hlen], ?_⟩
    · simp only [processLinesGo, hp.1]
      simp only [if_true]
      rw [hK, concatLines, String.append_assoc, String.append_assoc]
    · intro s hs
      rcases List.mem_cons.mp hs with h | h
      · exact h ▸ hp.2.2
      · exact hfree s h

/-- The final buffer of a restricted run is a concatenation of as many
newline-free lines as the input has. -/
theorem engineBuffer_literal_nfree (opts : Opts) (css : List changeset) (content : String)
    (hM2 : opts.ModeIsLineInFile = false) (hM1 : opts.ModeIsReplaceLine = false)
    (hRem : opts.OnceRemoveMatch = false) (hBR : opts.RegexBackref = false)
    (hcs : litNewlineFree css) :
    ∃ K, engineBuffer opts css content = concatLines K ∧
      K.length = (goSplitLines content).length ∧ (∀ s ∈ K, '\n' ∉ s.data) := by
  rcases processLinesGo_literal_nfree opts hM1 hM2 hRem hBR (goSplitLines content) css ""
    false hcs (goSplitLines_nfree content) with ⟨K, hK, hlen, hfree⟩
  refine ⟨K, ?_, hlen, hfree⟩
  unfold engineBuffer
  rw [hM2]
  simp only [Bool.false_eq_true, if_false]
  rw [hK, str_nil_append]

/-- A successful write leaves on disk either the original content (dry run)
or exactly the content handed to it. -/
theorem writeContentToFile_disk (opts : Opts) (wOk : Bool) (f : fileitem)
    (cont orig : String) (q : String × Bool × String)
    (h : writeContentToFile opts wOk f cont orig = .ok q) :
    q.2.2 = orig ∨ q.2.2 = cont := by
  unfold writeContentToFile at h
  by_cases hD : opts.DryRun = true
  · rw [if_pos hD] at h
    have hq := Except.ok.inj h
    left
    rw [← hq]
  · rw [if_neg hD] at h
    by_cases hW : wOk = true
    · rw [if_pos hW] at h
      have hq := Except.ok.inj h
      right
      rw [← hq]
    · rw [if_neg hW] at h
      exact absurd h (by simp)

/-- Counterexample to claim C7 as stated: in substring mode with a literal
search term the line count is not always preserved.  A replacement embedding
a newline turns one line into two, and once-remove-match drops a whole line. -/
theorem C7_line_count_counterexample :
    okDisk (applyChangesetsToFile optsReplace true ⟨"f"⟩ (some "a\n") [csetNewline]) =
      some "x\ny\n" ∧
    (goSplitLines "x\ny\n").length = 2 ∧ (goSplitLines "a\n").length = 1 ∧
    okDisk (applyChangesetsToFile optsOnceRemove true ⟨"f"⟩ (some "a\na\n") [csetAB]) =
      some "b\n" ∧
    (goSplitLines "b\n").length = 1 ∧ (goSplitLines "a\na\n").length = 2 := by
  decide

/-- Claim C7 as amended: in substring (replace) mode with literal search
terms, provided no replacement text contains a newline and once-remove-match
is not active, a run never alters the number of lines of the file. -/
theorem C7_amended_line_count (opts : Opts) (writeOk : Bool) (f : fileitem)
    (css : List changeset) (content : String)
    (hM1 : opts.ModeIsReplaceLine = false) (hM2 : opts.ModeIsLineInFile = false)
    (hRem : opts.OnceRemoveMatch = false) (hBR : opts.RegexBackref = false)
    (hcs : litNewlineFree css) :
    ∀ o s cs' d,
      applyChangesetsToFile opts writeOk f (some content) css = .ok (o, s, cs', d) →
      (goSplitLines d).length = (goSplitLines content).length := by
  intro o s cs' d h
  rw [applyChangesetsToFile_view] at h
  cases hCh : engineChanged opts css content
  · rw [hCh] at h
    simp only [Bool.false_eq_true, if_false] at h
    have hd := congrArg (fun p => p.2.2.2) (Except.ok.inj h)
    dsimp only at hd
    rw [← hd]
  · rw [hCh] at h
    simp only [eq_self_iff_true, if_true] at h
    cases hw : writeContentToFile opts writeOk f (engineBuffer opts css content) content with
    | error e =>
      rw [hw] at h
      exact absurd h (by simp)
    | ok q =>
      rw [hw] at h
      have hd := congrArg (fun p => p.2.2.2) (Except.ok.inj h)
      dsimp only at hd
      rcases writeContentToFile_disk opts writeOk f (engineBuffer opts css content)
        content q hw with hq | hq
      · rw [← hd, hq]
      · rcases engineBuffer_literal_nfree opts css content hM2 hM1 hRem hBR hcs with
          ⟨K, hK, hlen, hfree⟩
        rw [← hd, hq, hK, goSplitLines_concatLines_length K hfree, hlen]

/-- Witness for the amended C7: `a -> XY` on a one-line file keeps one line. -/
theorem C7_amended_line_count_witness :
    litNewlineFree [csetAXY] ∧
    (goSplitLines "XY\n").length = (goSplitLines "a\n").length := by
  have hlit : litNewlineFree [csetAXY] := by
    intro c hc
    rw [List.mem_singleton.mp hc]
    exact ⟨⟨"a", rfl⟩, by decide⟩
  refine ⟨hlit, ?_⟩
  have hok : applyChangesetsToFile optsReplace true ⟨"f"⟩ (some "a\n") [csetAXY] =
      .ok ("f found and replaced match\n", true,
        [{ Search := literalMatcher "a", Replace := "XY", MatchFound := true }],
        "XY\n") := rfl
  exact C7_amended_line_count optsReplace true ⟨"f"⟩ [csetAXY] "a\n" rfl rfl rfl rfl hlit
    _ _ _ _ hok

/-- Claim C1 evaluated at the state-sharing failure (code bug): main passes
the one `changesets` slice to every goroutine (lines 403-407), and
`changesets[i].MatchFound = true` (line 106) writes through the shared
backing array.  In the interleaving where file 1's task completes before
file 2's starts, the match recorded for file 1 under `--once` suppresses the
match in file 2, which is reported "no match" and left unmodified on disk —
although the very same file with a fresh changeset copy reports a match and
is rewritten. -/
theorem C1_shared_matchstate_leak :
    sharedRunOutputs (runTwoFilesSharedFirstThenSecond optsOnce true ⟨"f1"⟩ (some "a\n")
        ⟨"f2"⟩ (some "a\n") [csetAB]) =
      some (("f1 found and replaced match\n", true, "b\n"),
        ("f2 no match", true, "a\n")) ∧
    okOutput (applyChangesetsToFile optsOnce true ⟨"f2"⟩ (some "a\n") [csetAB]) =
      some "f2 found and replaced match\n" ∧
    okDisk (applyChangesetsToFile optsOnce true ⟨"f2"⟩ (some "a\n") [csetAB]) =
      some "b\n" := by
  decide

/-- Claim C2 on the result-accounting model (code bug): every dispatched task
sends exactly one result, and with verbose enabled main drains all of them
before exiting; but with verbose off main never receives from the unbuffered
results channel and reaches `os.Exit(0)` having consumed none — already with
a single dispatched task the run exits with zero results reported. -/
theorem C2_exit_without_waiting :
    (∀ (opts : Opts) (writeOk : Bool) (css : List changeset)
      (files : List (fileitem × Option String)),
      (runTasksResults opts writeOk css files).length = files.length) ∧
    (∀ n : Nat, mainResultsConsumedBeforeExit true n = n) ∧
    mainResultsConsumedBeforeExit false 1 = 0 :=
  ⟨fun _ _ _ files => by simp [runTasksResults], fun _ => rfl, rfl⟩

end GoReplace
